import Mathlib

/-!
Verification development for the schema-directive dispatch engine of
graphql-tools (src/utils/SchemaDirectiveVisitor.ts).

The definitions below are a shallow embedding of that file.  Collaborators
that the file imports but whose sources are not available here
(SchemaVisitor, the visitSchema walker, valueFromASTUntyped, and the
graphql library function getArgumentValues) are modelled from the
specification's description of their interfaces; each such definition is
marked in its doc comment.
-/

namespace GraphQLTools

/-- Native values produced by argument resolution (the JavaScript values a
directive visitor sees in its args mapping). -/
inductive Value where
  | int (n : Int)
  | str (s : String)
  | bool (b : Bool)
  | enum (s : String)
  | null
  | list (vs : List Value)
  | obj (fields : List (String × Value))

/-- Literal value AST nodes attached to a directive occurrence's arguments
(unresolved literal syntax). -/
inductive ValueNode where
  | intV (n : Int)
  | strV (s : String)
  | boolV (b : Bool)
  | enumV (s : String)
  | nullV
  | listV (vs : List ValueNode)
  | objV (fields : List (String × ValueNode))
  | variableV (n : String)

/-- One directive occurrence node in the AST: a name plus raw argument
nodes (argument name, literal value node). -/
structure DirectiveNode where
  name : String
  arguments : List (String × ValueNode)

/-- The part of an AST definition or extension node that the selector
reads: its list of directive occurrences. -/
structure ASTNode where
  directives : List DirectiveNode

/-- A visitable schema element as seen by visitorSelector: it carries an
optional base-definition AST node and optionally a list of extension AST
nodes. -/
structure SchemaElement where
  astNode : Option ASTNode
  extensionASTNodes : Option (List ASTNode)

/-- The DirectiveLocationEnum of graphql-js: every location where a
directive may legally appear. -/
inductive DirectiveLocation where
  | QUERY | MUTATION | SUBSCRIPTION | FIELD
  | FRAGMENT_DEFINITION | FRAGMENT_SPREAD | INLINE_FRAGMENT | VARIABLE_DEFINITION
  | SCHEMA | SCALAR | OBJECT | FIELD_DEFINITION | ARGUMENT_DEFINITION
  | INTERFACE | UNION | ENUM | ENUM_VALUE | INPUT_OBJECT | INPUT_FIELD_DEFINITION
deriving DecidableEq

/-- The symbolic name of a directive location, exactly the string value of
the corresponding DirectiveLocationEnum member. -/
def DirectiveLocation.str : DirectiveLocation → String
  | .QUERY => "QUERY"
  | .MUTATION => "MUTATION"
  | .SUBSCRIPTION => "SUBSCRIPTION"
  | .FIELD => "FIELD"
  | .FRAGMENT_DEFINITION => "FRAGMENT_DEFINITION"
  | .FRAGMENT_SPREAD => "FRAGMENT_SPREAD"
  | .INLINE_FRAGMENT => "INLINE_FRAGMENT"
  | .VARIABLE_DEFINITION => "VARIABLE_DEFINITION"
  | .SCHEMA => "SCHEMA"
  | .SCALAR => "SCALAR"
  | .OBJECT => "OBJECT"
  | .FIELD_DEFINITION => "FIELD_DEFINITION"
  | .ARGUMENT_DEFINITION => "ARGUMENT_DEFINITION"
  | .INTERFACE => "INTERFACE"
  | .UNION => "UNION"
  | .ENUM => "ENUM"
  | .ENUM_VALUE => "ENUM_VALUE"
  | .INPUT_OBJECT => "INPUT_OBJECT"
  | .INPUT_FIELD_DEFINITION => "INPUT_FIELD_DEFINITION"

/-- Title-casing of one segment, as in the replacement callback
part.charAt(0).toUpperCase() + part.slice(1).toLowerCase() (the enum
names are ASCII, where the JavaScript and Lean case maps agree). -/
def titleCasePart : List Char → List Char
  | [] => []
  | c :: rest => c.toUpper :: rest.map Char.toLower

/-- Splitting on the underscore separator.  This is the decomposition the
regex replace loc.replace(([^_]*)_? underscore-grouping, global) performs:
each match is a maximal run of non-underscore characters, optionally
consuming one following underscore. -/
def splitParts : List Char → List (List Char)
  | [] => [[]]
  | c :: t =>
    if c = '_' then [] :: splitParts t
    else
      match splitParts t with
      | p :: ps => (c :: p) :: ps
      | [] => [[c]]

/-- Translation of directiveLocationToVisitorMethodName: convert a string
like FIELD_DEFINITION to visitFieldDefinition. -/
def directiveLocationToVisitorMethodName (loc : DirectiveLocation) : String :=
  "visit" ++ String.mk (((splitParts loc.str.data).map titleCasePart).flatten)

/-- The specification's title-casing of one segment: first character
uppercased, remaining characters lowercased. -/
def specTitleCase (cs : List Char) : List Char :=
  (cs.take 1).map Char.toUpper ++ (cs.drop 1).map Char.toLower

/-- The specification's characterization of the location mapper: split the
symbolic name on the underscore separator, title-case each segment,
concatenate the segments, and prepend the fixed string. -/
def specLocationMethodName (loc : DirectiveLocation) : String :=
  "visit" ++ String.mk (((loc.str.data.splitOn '_').map specTitleCase).flatten)

/-- Modelled from the spec: the Visitor Base (SchemaVisitor, whose source
is not available here) exposes one optional no-op handler per schema
location; these are its handler method names. -/
def visitorMethodNames : List String :=
  ["visitSchema", "visitScalar", "visitObject", "visitFieldDefinition",
   "visitArgumentDefinition", "visitInterface", "visitUnion", "visitEnum",
   "visitEnumValue", "visitInputObject", "visitInputFieldDefinition"]

/-- Modelled from the spec: SchemaVisitor.implementsVisitorMethod called on
the base class itself reports whether an identifier names a real handler
(the base class implements every one of its own handler methods). -/
def baseImplementsVisitorMethod (m : String) : Bool :=
  visitorMethodNames.any (fun x => x = m)

/-- Declared input types a directive argument can have, for the
declared-type coercion step. -/
inductive InputType where
  | intT
  | strT
  | boolT
  | enumT (values : List String)
  | listT (t : InputType)

/-- A declared directive argument: name, declared input type, optional
default value. -/
structure ArgDef where
  name : String
  argType : InputType
  defaultValue : Option Value

/-- A directive declaration (GraphQLDirective): name, argument signature,
and legal locations. -/
structure GraphQLDirective where
  name : String
  args : List ArgDef
  locations : List DirectiveLocation

/-- A schema as consumed by the dispatch engine: its declared directives
(schema.getDirectives()) and, modelled from the spec, the walker's visit
order: the elements the visitSchema walker (source not available here)
offers to the selector, each paired with the handler-method name derived
from its location kind. -/
structure Schema where
  directives : List GraphQLDirective
  traversal : List (SchemaElement × String)

/-- schema.getDirective(name): the first declared directive with the given
name, if any. -/
def Schema.getDirective (s : Schema) (n : String) : Option GraphQLDirective :=
  s.directives.find? (fun d => d.name = n)

/-- A subclass of SchemaDirectiveVisitor as registered in the visitor
mapping: its capability set (implementsVisitorMethod on the subclass,
modelled from the spec as the set of handlers whose implementation differs
from the no-op default) and its getDirectiveDeclaration static hook. -/
structure SchemaDirectiveVisitorClass where
  overrides : String → Bool
  getDirectiveDeclaration : String → Schema → Option GraphQLDirective

/-- Translation of the base getDirectiveDeclaration: by default, return
whatever declaration the schema itself holds for the name. -/
def defaultGetDirectiveDeclaration (directiveName : String) (schema : Schema) :
    Option GraphQLDirective :=
  schema.getDirective directiveName

/-- Association-list lookup, modelling property access / hasOwnProperty on
a string-keyed JavaScript object. -/
def lookupA {α : Type} : List (String × α) → String → Option α
  | [], _ => none
  | p :: rest, n => if p.1 = n then some p.2 else lookupA rest n

/-- Association-list update, modelling property assignment on a
string-keyed JavaScript object: replace the value at an existing key in
place, or append a fresh key at the end. -/
def insertAssoc {α : Type} : List (String × α) → String → α → List (String × α)
  | [], k, v => [(k, v)]
  | p :: rest, k, v => if p.1 = k then (k, v) :: rest else p :: insertAssoc rest k v

mutual

/-- Modelled from the spec: valueFromASTUntyped (source not available
here) converts a raw argument literal to a native value with no type
checking; strings, numbers, booleans, enums-as-strings, lists and
object-literals convert structurally, while a variable reference is
invalid in this position and is an error. -/
def valueFromASTUntyped : ValueNode → Except String Value
  | .intV n => Except.ok (.int n)
  | .strV s => Except.ok (.str s)
  | .boolV b => Except.ok (.bool b)
  | .enumV s => Except.ok (.enum s)
  | .nullV => Except.ok .null
  | .variableV n => Except.error ("Variable reference in directive argument: " ++ n)
  | .listV vs => Except.map Value.list (valuesFromASTUntyped vs)
  | .objV fs => Except.map Value.obj (fieldsFromASTUntyped fs)

/-- Modelled from the spec: untyped conversion of a list literal,
element by element. -/
def valuesFromASTUntyped : List ValueNode → Except String (List Value)
  | [] => Except.ok []
  | v :: vs =>
    match valueFromASTUntyped v, valuesFromASTUntyped vs with
    | Except.ok a, Except.ok b => Except.ok (a :: b)
    | Except.error e, _ => Except.error e
    | _, Except.error e => Except.error e

/-- Modelled from the spec: untyped conversion of an object literal,
field by field. -/
def fieldsFromASTUntyped : List (String × ValueNode) → Except String (List (String × Value))
  | [] => Except.ok []
  | f :: fs =>
    match valueFromASTUntyped f.2, fieldsFromASTUntyped fs with
    | Except.ok a, Except.ok b => Except.ok ((f.1, a) :: b)
    | Except.error e, _ => Except.error e
    | _, Except.error e => Except.error e

end

mutual

/-- Modelled from the spec: coercion of one literal argument node against
a declared input type; none signals a type mismatch. -/
def coerceInputValue : InputType → ValueNode → Option Value
  | .intT, .intV n => some (.int n)
  | .strT, .strV s => some (.str s)
  | .boolT, .boolV b => some (.bool b)
  | .enumT vals, .enumV s => if vals.any (fun x => x = s) then some (.enum s) else none
  | .listT t, .listV vs => Option.map Value.list (coerceInputList t vs)
  | _, _ => none

/-- Modelled from the spec: coercion of a list literal against a declared
element type. -/
def coerceInputList : InputType → List ValueNode → Option (List Value)
  | _, [] => some []
  | t, v :: vs =>
    match coerceInputValue t v, coerceInputList t vs with
    | some a, some b => some (a :: b)
    | _, _ => none

end

/-- Modelled from the spec: the unsupported-argument-name check of the
external getArgumentValues: every supplied argument name must be declared. -/
def checkSupportedNames (argDefs : List ArgDef) : List (String × ValueNode) → Except String Unit
  | [] => Except.ok ()
  | a :: rest =>
    if argDefs.any (fun d => d.name = a.1) then checkSupportedNames argDefs rest
    else Except.error ("Unknown argument " ++ a.1)

/-- Modelled from the spec: coerce each declared argument from the
supplied nodes, applying the declared default when the occurrence omits
the argument, and failing on a type mismatch. -/
def coerceArgDefs (supplied : List (String × ValueNode)) :
    List ArgDef → Except String (List (String × Value))
  | [] => Except.ok []
  | d :: rest =>
    match lookupA supplied d.name with
    | some vnode =>
      match coerceInputValue d.argType vnode with
      | some v => Except.map (fun l => (d.name, v) :: l) (coerceArgDefs supplied rest)
      | none => Except.error ("Argument " ++ d.name ++ " has invalid value")
    | none =>
      match d.defaultValue with
      | some v => Except.map (fun l => (d.name, v) :: l) (coerceArgDefs supplied rest)
      | none => coerceArgDefs supplied rest

/-- Modelled from the spec: the external getArgumentValues of the graphql
library, at the interface it presents to the core: coerce the occurrence's
argument nodes against the declaration's argument types, applying declared
defaults, with a fatal error on a type mismatch or an unsupported argument
name. -/
def getArgumentValues (decl : GraphQLDirective) (node : DirectiveNode) :
    Except String (List (String × Value)) :=
  match checkSupportedNames decl.args node.arguments with
  | Except.error e => Except.error e
  | Except.ok _ => coerceArgDefs node.arguments decl.args

/-- Translation of the seeding step of getDeclaredDirectives: record every
directive declared in the schema, keyed by name. -/
def seedDeclared (schema : Schema) : List (String × GraphQLDirective) :=
  schema.directives.foldl (fun m d => insertAssoc m d.name d) []

/-- Translation of the override step of getDeclaredDirectives: for every
registered (name, visitor class) pair, a non-null result of the class's
getDirectiveDeclaration hook replaces any schema-seeded declaration for
that name. -/
def mergeHookDeclared (schema : Schema)
    (directiveVisitors : List (String × SchemaDirectiveVisitorClass)) :
    List (String × GraphQLDirective) :=
  directiveVisitors.foldl
    (fun m p =>
      match p.2.getDirectiveDeclaration p.1 schema with
      | some d => insertAssoc m p.1 d
      | none => m)
    (seedDeclared schema)

/-- Translation of the inner validation loop of getDeclaredDirectives:
every legal location of a declaration must map to a handler the visitor
class implements, whenever the mapped identifier is a real handler. -/
def checkLocations (n : String) (cls : SchemaDirectiveVisitorClass) :
    List DirectiveLocation → Except String Unit
  | [] => Except.ok ()
  | loc :: rest =>
    let m := directiveLocationToVisitorMethodName loc
    if baseImplementsVisitorMethod m && !(cls.overrides m) then
      Except.error ("SchemaDirectiveVisitor for @" ++ n ++ " must implement " ++ m ++ " method")
    else checkLocations n cls rest

/-- Translation of the outer validation loop of getDeclaredDirectives:
declarations whose names are absent from the visitor mapping are skipped;
the rest are validated against their registered class. -/
def checkDeclared (directiveVisitors : List (String × SchemaDirectiveVisitorClass)) :
    List (String × GraphQLDirective) → Except String Unit
  | [] => Except.ok ()
  | p :: rest =>
    match lookupA directiveVisitors p.1 with
    | none => checkDeclared directiveVisitors rest
    | some cls =>
      match checkLocations p.1 cls p.2.locations with
      | Except.ok _ => checkDeclared directiveVisitors rest
      | Except.error e => Except.error e

/-- Translation of getDeclaredDirectives: seed from the schema, apply the
visitor classes' declaration hooks, then validate locations, failing
fatally on the first violation. -/
def getDeclaredDirectives (schema : Schema)
    (directiveVisitors : List (String × SchemaDirectiveVisitorClass)) :
    Except String (List (String × GraphQLDirective)) :=
  match checkDeclared directiveVisitors (mergeHookDeclared schema directiveVisitors) with
  | Except.ok _ => Except.ok (mergeHookDeclared schema directiveVisitors)
  | Except.error e => Except.error e

/-- A SchemaDirectiveVisitor instance, as built by the protected
constructor: the constructor copies the config fields onto the instance.
The context field holds the reference identity of the shared context
object. -/
structure SchemaDirectiveVisitor where
  name : String
  args : List (String × Value)
  visitedType : SchemaElement
  schema : Schema
  context : Nat

/-- Translation of the directive-node collection at the top of
visitorSelector: the base definition's directives (empty when the element
has no AST node), with each extension AST node's directives concatenated
after them. -/
def directiveNodesOf (t : SchemaElement) : List DirectiveNode :=
  let base := match t.astNode with
    | some a => a.directives
    | none => []
  match t.extensionASTNodes with
  | none => base
  | some exts => exts.foldl (fun acc e => acc ++ e.directives) base

/-- Translation of the undeclared-directive branch of visitorSelector:
iterate over the occurrence's argument nodes, assigning the untyped
conversion of each literal to its argument name in the args object. -/
def untypedLoop (acc : List (String × Value)) :
    List (String × ValueNode) → Except String (List (String × Value))
  | [] => Except.ok acc
  | a :: rest =>
    match valueFromASTUntyped a.2 with
    | Except.error e => Except.error e
    | Except.ok v => untypedLoop (insertAssoc acc a.1 v) rest

/-- Translation of the argument-resolution step of visitorSelector: use
the declared argument types when an effective declaration exists for the
occurrence's name, and the untyped conversion of each argument literal
otherwise. -/
def resolveArgs (declaredDirectives : List (String × GraphQLDirective))
    (node : DirectiveNode) : Except String (List (String × Value)) :=
  match lookupA declaredDirectives node.name with
  | some decl => getArgumentValues decl node
  | none => untypedLoop [] node.arguments

/-- Translation of the occurrence loop of visitorSelector: skip
occurrences whose name is not an own key of the visitor mapping, skip
occurrences whose registered class does not implement the handler named by
methodName, resolve the arguments of the rest, and push one freshly
constructed visitor instance per remaining occurrence. -/
def selectorLoop (schema : Schema)
    (directiveVisitors : List (String × SchemaDirectiveVisitorClass))
    (declaredDirectives : List (String × GraphQLDirective))
    (context : Nat) (t : SchemaElement) (methodName : String)
    (visitors : List SchemaDirectiveVisitor) :
    List DirectiveNode → Except String (List SchemaDirectiveVisitor)
  | [] => Except.ok visitors
  | node :: rest =>
    match lookupA directiveVisitors node.name with
    | none => selectorLoop schema directiveVisitors declaredDirectives context t methodName visitors rest
    | some visitorClass =>
      if visitorClass.overrides methodName then
        match resolveArgs declaredDirectives node with
        | Except.error e => Except.error e
        | Except.ok args =>
          selectorLoop schema directiveVisitors declaredDirectives context t methodName
            (visitors ++ [SchemaDirectiveVisitor.mk node.name args t schema context]) rest
      else selectorLoop schema directiveVisitors declaredDirectives context t methodName visitors rest

/-- Translation of visitorSelector: collect the element's directive nodes
(base definition plus extensions) and run the occurrence loop over them
with an empty visitors array. -/
def visitorSelector (schema : Schema)
    (directiveVisitors : List (String × SchemaDirectiveVisitorClass))
    (declaredDirectives : List (String × GraphQLDirective))
    (context : Nat) (t : SchemaElement) (methodName : String) :
    Except String (List SchemaDirectiveVisitor) :=
  selectorLoop schema directiveVisitors declaredDirectives context t methodName []
    (directiveNodesOf t)

/-- Translation of the construction side effect of the occurrence loop:
the contents of the visitors array at the moment the loop either completes
or argument resolution throws.  When resolution fails on an occurrence,
the instances pushed for the element's earlier occurrences have already
been constructed, even though the selector never returns them and the
result map never records them. -/
def selectorCreated (schema : Schema)
    (directiveVisitors : List (String × SchemaDirectiveVisitorClass))
    (declaredDirectives : List (String × GraphQLDirective))
    (context : Nat) (t : SchemaElement) (methodName : String)
    (visitors : List SchemaDirectiveVisitor) :
    List DirectiveNode → List SchemaDirectiveVisitor
  | [] => visitors
  | node :: rest =>
    match lookupA directiveVisitors node.name with
    | none =>
      selectorCreated schema directiveVisitors declaredDirectives context t methodName
        visitors rest
    | some visitorClass =>
      if visitorClass.overrides methodName then
        match resolveArgs declaredDirectives node with
        | Except.error _ => visitors
        | Except.ok args =>
          selectorCreated schema directiveVisitors declaredDirectives context t methodName
            (visitors ++ [SchemaDirectiveVisitor.mk node.name args t schema context]) rest
      else
        selectorCreated schema directiveVisitors declaredDirectives context t methodName
          visitors rest

/-- Observable events of one dispatch pass: an instance is constructed for
an occurrence whose element's location maps to methodName, or a handler
method is invoked on an instance.  Handler invocation is the only point at
which a visitor may mutate the element or schema. -/
inductive Event where
  | created (v : SchemaDirectiveVisitor) (methodName : String)
  | invoked (v : SchemaDirectiveVisitor) (methodName : String)

/-- Kind of an event, forgetting the instance. -/
inductive EventKind where
  | create
  | invoke
deriving DecidableEq

/-- Project an event to its kind. -/
def Event.kind : Event → EventKind
  | .created _ _ => .create
  | .invoked _ _ => .invoke

/-- The instance an event concerns. -/
def Event.inst : Event → SchemaDirectiveVisitor
  | .created v _ => v
  | .invoked v _ => v

/-- The instances of the creation events of a trace, in order. -/
def createdInstances : List Event → List SchemaDirectiveVisitor
  | [] => []
  | .created v _ :: rest => v :: createdInstances rest
  | .invoked _ _ :: rest => createdInstances rest

/-- The (instance, method) pairs of the creation events of a trace, in
order. -/
def createdPairs : List Event → List (SchemaDirectiveVisitor × String)
  | [] => []
  | .created v m :: rest => (v, m) :: createdPairs rest
  | .invoked _ _ :: rest => createdPairs rest

/-- The (instance, method) pairs of the invocation events of a trace, in
order. -/
def invokedPairs : List Event → List (SchemaDirectiveVisitor × String)
  | [] => []
  | .created _ _ :: rest => invokedPairs rest
  | .invoked v m :: rest => (v, m) :: invokedPairs rest

/-- Translation of the result-map initialization of visitSchemaDirectives:
one empty list per name registered in the visitor mapping. -/
def initCreated (directiveVisitors : List (String × SchemaDirectiveVisitorClass)) :
    List (String × List SchemaDirectiveVisitor) :=
  directiveVisitors.foldl (fun m p => insertAssoc m p.1 []) []

/-- Translation of the recording step at the end of visitorSelector: push
each created visitor onto the result-map list keyed by its own name. -/
def appendToKey :
    List (String × List SchemaDirectiveVisitor) → String → SchemaDirectiveVisitor →
    List (String × List SchemaDirectiveVisitor)
  | [], _, _ => []
  | p :: rest, n, v =>
    if p.1 = n then (p.1, p.2 ++ [v]) :: rest else p :: appendToKey rest n v

/-- Record a whole batch of created visitors in the result map, in order. -/
def addAll (created : List (String × List SchemaDirectiveVisitor))
    (vs : List SchemaDirectiveVisitor) : List (String × List SchemaDirectiveVisitor) :=
  vs.foldl (fun m v => appendToKey m v.name v) created

/-- Modelled from the spec: the visitSchema walker (source not available
here) offers every element to the selector in a fixed order and lets the
returned visitor handlers run with side effects; here it threads the
result map through the traversal and emits the trace of creations and
handler invocations.  For each element the selector first constructs every
instance for that element and returns them; the walker then invokes the
handler named by the element's method name on each returned instance in
order.  When the selector throws on an element, the instances it had
already constructed for that element's earlier occurrences were created
(their creation events are emitted) but the error propagates before any of
them is invoked and before the result map records them. -/
def walk (schema : Schema)
    (directiveVisitors : List (String × SchemaDirectiveVisitorClass))
    (declaredDirectives : List (String × GraphQLDirective)) (context : Nat) :
    List (SchemaElement × String) → List (String × List SchemaDirectiveVisitor) →
    List Event × Except String (List (String × List SchemaDirectiveVisitor))
  | [], created => ([], Except.ok created)
  | e :: rest, created =>
    match visitorSelector schema directiveVisitors declaredDirectives context e.1 e.2 with
    | Except.error err =>
      ((selectorCreated schema directiveVisitors declaredDirectives context e.1 e.2 []
          (directiveNodesOf e.1)).map (fun v => Event.created v e.2),
        Except.error err)
    | Except.ok vs =>
      let evs := vs.map (fun v => Event.created v e.2) ++ vs.map (fun v => Event.invoked v e.2)
      let r := walk schema directiveVisitors declaredDirectives context rest (addAll created vs)
      (evs ++ r.1, r.2)

/-- Translation of visitSchemaDirectives: resolve the effective
declarations (failing before the walk on a configuration error),
initialize the result map with an empty list per registered name, default
the context to a fresh empty object when the caller omits it, and drive
the walker with visitorSelector.  Returns the trace of events alongside
the result map; contextArg is the caller-supplied context reference and
freshContext the reference of the fresh empty object allocated when the
caller supplies none. -/
def visitSchemaDirectives (schema : Schema)
    (directiveVisitors : List (String × SchemaDirectiveVisitorClass))
    (contextArg : Option Nat) (freshContext : Nat) :
    List Event × Except String (List (String × List SchemaDirectiveVisitor)) :=
  match getDeclaredDirectives schema directiveVisitors with
  | Except.error e => ([], Except.error e)
  | Except.ok declared =>
    walk schema directiveVisitors declared (contextArg.getD freshContext)
      schema.traversal (initCreated directiveVisitors)

/-! Concrete example inputs, used to evaluate the theorems below on
closed instances. -/

/-- Example visitor class: implements only visitFieldDefinition and keeps
the default declaration hook. -/
def upperClass : SchemaDirectiveVisitorClass :=
  ⟨fun m => m = "visitFieldDefinition", defaultGetDirectiveDeclaration⟩

/-- Example occurrence of an undeclared directive with no arguments. -/
def upperNode : DirectiveNode := ⟨"upper", []⟩

/-- Example element carrying one occurrence on its base definition and one
on an extension node. -/
def exElem : SchemaElement := ⟨some ⟨[upperNode]⟩, some [⟨[upperNode]⟩]⟩

/-- Example element with no AST node and no extension nodes. -/
def bareElem : SchemaElement := ⟨none, none⟩

/-- Example schema: no declared directives, one visited element at the
field-definition location. -/
def exSchema : Schema := ⟨[], [(exElem, "visitFieldDefinition")]⟩

/-- Example visitor mapping registering upperClass under the name upper. -/
def exDv : List (String × SchemaDirectiveVisitorClass) := [("upper", upperClass)]

/-- The instance the example dispatch pass creates for each upper
occurrence when called with context reference 5. -/
def exVisitor : SchemaDirectiveVisitor := ⟨"upper", [], exElem, exSchema, 5⟩

/-- Example visitor class that overrides no handler at all. -/
def noopClass : SchemaDirectiveVisitorClass :=
  ⟨fun _ => false, defaultGetDirectiveDeclaration⟩

/-- Example declaration legal on the object location only. -/
def authDecl : GraphQLDirective := ⟨"auth", [], [DirectiveLocation.OBJECT]⟩

/-- Example schema declaring authDecl and visiting nothing. -/
def authSchema : Schema := ⟨[authDecl], []⟩

/-- Example mapping registering the handler-less class for auth. -/
def authDv : List (String × SchemaDirectiveVisitorClass) := [("auth", noopClass)]

/-- Example declaration as supplied by a visitor's declaration hook. -/
def authDecl2 : GraphQLDirective :=
  ⟨"auth", [⟨"requires", InputType.strT, some (Value.str "REVIEWER")⟩],
    [DirectiveLocation.OBJECT]⟩

/-- Example visitor class with a custom declaration hook returning
authDecl2. -/
def hookClass : SchemaDirectiveVisitorClass :=
  ⟨fun m => m = "visitObject", fun _ _ => some authDecl2⟩

/-- Example mapping registering hookClass for auth. -/
def hookDv : List (String × SchemaDirectiveVisitorClass) := [("auth", hookClass)]

/-! Helper lemmas about the association-list operations. -/

theorem lookupA_insertAssoc_self {α : Type} (m : List (String × α)) (k : String) (v : α) :
    lookupA (insertAssoc m k v) k = some v := by
  induction m with
  | nil => simp [insertAssoc, lookupA]
  | cons p rest ih =>
    by_cases h : p.1 = k
    · simp [insertAssoc, h, lookupA]
    · simp [insertAssoc, h, lookupA, ih]

theorem lookupA_insertAssoc_ne {α : Type} (m : List (String × α)) (k n : String) (v : α)
    (h : n ≠ k) : lookupA (insertAssoc m k v) n = lookupA m n := by
  induction m with
  | nil => simp [insertAssoc, lookupA, Ne.symm h]
  | cons p rest ih =>
    by_cases hp : p.1 = k
    · subst hp
      simp [insertAssoc, lookupA, Ne.symm h, h]
    · simp only [insertAssoc, hp, if_false, lookupA]
      by_cases hn : p.1 = n
      · simp [hn]
      · simp [hn, ih]

theorem lookupA_none_forall {α : Type} (l : List (String × α)) (n : String)
    (h : lookupA l n = none) : ∀ p ∈ l, p.1 ≠ n := by
  induction l with
  | nil => simp
  | cons p rest ih =>
    by_cases hp : p.1 = n
    · simp [lookupA, hp] at h
    · simp only [lookupA, hp, if_false] at h
      intro q hq
      rcases List.mem_cons.mp hq with hq1 | hq2
      · simp [hq1, hp]
      · exact ih h q hq2

theorem lookupA_split {α : Type} (l : List (String × α)) (n : String) (v : α)
    (h : lookupA l n = some v) :
    ∃ l1 l2, l = l1 ++ (n, v) :: l2 ∧ ∀ p ∈ l1, p.1 ≠ n := by
  induction l with
  | nil => simp [lookupA] at h
  | cons p rest ih =>
    by_cases hp : p.1 = n
    · simp only [lookupA, hp, if_true, Option.some.injEq] at h
      refine ⟨[], rest, ?_, by simp⟩
      have : p = (n, v) := by
        cases p
        simp at hp h
        simp [hp, h]
      simp [this]
    · simp only [lookupA, hp, if_false] at h
      obtain ⟨l1, l2, heq, hne⟩ := ih h
      refine ⟨p :: l1, l2, by simp [heq], ?_⟩
      intro q hq
      rcases List.mem_cons.mp hq with hq1 | hq2
      · simp [hq1, hp]
      · exact hne q hq2

theorem lookupA_mem {α : Type} (l : List (String × α)) (n : String) (v : α)
    (h : lookupA l n = some v) : (n, v) ∈ l := by
  obtain ⟨l1, l2, heq, _⟩ := lookupA_split l n v h
  simp [heq]

theorem lookupA_appendToKey (m : List (String × List SchemaDirectiveVisitor))
    (k n : String) (v : SchemaDirectiveVisitor) :
    lookupA (appendToKey m k v) n =
      if n = k then Option.map (fun l => l ++ [v]) (lookupA m n) else lookupA m n := by
  induction m with
  | nil => by_cases h : n = k <;> simp [appendToKey, lookupA, h]
  | cons p rest ih =>
    by_cases hp : p.1 = k
    · by_cases hn : p.1 = n
      · simp [appendToKey, hp, lookupA, hn, hn ▸ hp]
      · have : ¬n = k := fun hh => hn (hh ▸ hp)
        simp [appendToKey, hp, lookupA, hn, this, Ne.symm this]
    · by_cases hn : p.1 = n
      · have : ¬n = k := fun hh => hp (hh.symm ▸ hn)
        simp [appendToKey, hp, lookupA, hn, this]
      · simp [appendToKey, hp, lookupA, hn, ih]

theorem lookupA_addAll (vs : List SchemaDirectiveVisitor)
    (m : List (String × List SchemaDirectiveVisitor)) (n : String) :
    lookupA (addAll m vs) n =
      Option.map (fun l => l ++ vs.filter (fun v => v.name = n)) (lookupA m n) := by
  induction vs generalizing m with
  | nil =>
    cases h : lookupA m n <;> simp [addAll, h]
  | cons v vs ih =>
    have step : addAll m (v :: vs) = addAll (appendToKey m v.name v) vs := by
      simp [addAll]
    rw [step, ih, lookupA_appendToKey]
    by_cases hn : n = v.name
    · cases h : lookupA m n <;>
        simp [hn, h, List.filter_cons, Option.map_map, Function.comp, List.append_assoc]
    · have : ¬(v.name = n) := fun hh => hn hh.symm
      cases h : lookupA m n <;> simp [hn, h, List.filter_cons, this]

theorem lookupA_foldl_initCreated
    (dv : List (String × SchemaDirectiveVisitorClass)) (n : String) :
    ∀ m0, lookupA (dv.foldl (fun m p => insertAssoc m p.1 ([] : List SchemaDirectiveVisitor)) m0) n =
      if (lookupA dv n).isSome then some ([] : List SchemaDirectiveVisitor) else lookupA m0 n := by
  induction dv with
  | nil => intro m0; simp [lookupA]
  | cons p rest ih =>
    intro m0
    by_cases hp : p.1 = n
    · simp only [List.foldl_cons, lookupA, hp, if_true, Option.isSome_some]
      rw [ih]
      by_cases hr : (lookupA rest n).isSome
      · simp [hr]
      · simp [hr, hp ▸ lookupA_insertAssoc_self m0 p.1 []]
    · simp only [List.foldl_cons, lookupA, hp, if_false]
      rw [ih, lookupA_insertAssoc_ne m0 p.1 n [] (fun hh => hp hh.symm)]

theorem lookupA_initCreated (dv : List (String × SchemaDirectiveVisitorClass)) (n : String) :
    lookupA (initCreated dv) n = if (lookupA dv n).isSome then some [] else none := by
  have := lookupA_foldl_initCreated dv n []
  simpa [initCreated, lookupA] using this

/-! Helper lemmas about the occurrence loop of visitorSelector. -/

theorem selectorLoop_acc (schema : Schema)
    (dv : List (String × SchemaDirectiveVisitorClass))
    (dd : List (String × GraphQLDirective)) (c : Nat) (t : SchemaElement) (m : String)
    (nodes : List DirectiveNode) :
    ∀ acc, selectorLoop schema dv dd c t m acc nodes =
      Except.map (fun vs => acc ++ vs) (selectorLoop schema dv dd c t m [] nodes) := by
  induction nodes with
  | nil => intro acc; simp [selectorLoop, Except.map]
  | cons node rest ih =>
    intro acc
    simp only [selectorLoop]
    cases hr : lookupA dv node.name with
    | none => exact ih acc
    | some cls =>
      by_cases ho : cls.overrides m
      · simp only [ho, if_true]
        cases ha : resolveArgs dd node with
        | error e => simp [Except.map]
        | ok args =>
          show selectorLoop schema dv dd c t m
              (acc ++ [SchemaDirectiveVisitor.mk node.name args t schema c]) rest =
            Except.map (fun vs => acc ++ vs)
              (selectorLoop schema dv dd c t m
                ([] ++ [SchemaDirectiveVisitor.mk node.name args t schema c]) rest)
          rw [ih (acc ++ [SchemaDirectiveVisitor.mk node.name args t schema c]),
            ih ([] ++ [SchemaDirectiveVisitor.mk node.name args t schema c])]
          cases selectorLoop schema dv dd c t m [] rest <;> simp [Except.map]
      · simp only [ho, if_false]
        exact ih acc

theorem selectorLoop_append (schema : Schema)
    (dv : List (String × SchemaDirectiveVisitorClass))
    (dd : List (String × GraphQLDirective)) (c : Nat) (t : SchemaElement) (m : String)
    (xs ys : List DirectiveNode) :
    ∀ acc, selectorLoop schema dv dd c t m acc (xs ++ ys) =
      Except.bind (selectorLoop schema dv dd c t m acc xs)
        (fun acc2 => selectorLoop schema dv dd c t m acc2 ys) := by
  induction xs with
  | nil => intro acc; simp [selectorLoop, Except.bind]
  | cons node rest ih =>
    intro acc
    simp only [List.cons_append, selectorLoop]
    cases hr : lookupA dv node.name with
    | none => exact ih acc
    | some cls =>
      by_cases ho : cls.overrides m
      · simp only [ho, if_true]
        cases ha : resolveArgs dd node with
        | error e => simp [Except.bind]
        | ok args => exact ih (acc ++ [SchemaDirectiveVisitor.mk node.name args t schema c])
      · simp only [ho, if_false]
        exact ih acc

theorem selectorLoop_skip (schema : Schema)
    (dv : List (String × SchemaDirectiveVisitorClass))
    (dd : List (String × GraphQLDirective)) (c : Nat) (t : SchemaElement) (m : String)
    (node : DirectiveNode)
    (h : ∀ cls, lookupA dv node.name = some cls → cls.overrides m = false) :
    ∀ pre post acc, selectorLoop schema dv dd c t m acc (pre ++ node :: post) =
      selectorLoop schema dv dd c t m acc (pre ++ post) := by
  intro pre
  induction pre with
  | nil =>
    intro post acc
    simp only [List.nil_append, selectorLoop]
    cases hr : lookupA dv node.name with
    | none => rfl
    | some cls => simp [h cls hr]
  | cons q qs ih =>
    intro post acc
    simp only [List.cons_append, selectorLoop]
    cases hr : lookupA dv q.name with
    | none => exact ih post acc
    | some cls =>
      by_cases ho : cls.overrides m
      · simp only [ho, if_true]
        cases ha : resolveArgs dd q with
        | error e => rfl
        | ok args => exact ih post _
      · simp only [ho, if_false]
        exact ih post acc

theorem selectorLoop_mem (schema : Schema)
    (dv : List (String × SchemaDirectiveVisitorClass))
    (dd : List (String × GraphQLDirective)) (c : Nat) (t : SchemaElement) (m : String)
    (nodes : List DirectiveNode) :
    ∀ acc vs, selectorLoop schema dv dd c t m acc nodes = Except.ok vs →
      ∀ v ∈ vs, v ∈ acc ∨
        (v.schema = schema ∧ v.context = c ∧ v.visitedType = t ∧
          (lookupA dv v.name).isSome) := by
  induction nodes with
  | nil =>
    intro acc vs h v hv
    simp only [selectorLoop, Except.ok.injEq] at h
    exact Or.inl (h ▸ hv)
  | cons node rest ih =>
    intro acc vs h v hv
    simp only [selectorLoop] at h
    split at h
    · exact ih acc vs h v hv
    · rename_i cls hr
      split at h
      · split at h
        · cases h
        · rename_i args ha
          rcases ih _ vs h v hv with hacc | hnew
          · rcases List.mem_append.mp hacc with h1 | h2
            · exact Or.inl h1
            · refine Or.inr ?_
              have hveq : v = SchemaDirectiveVisitor.mk node.name args t schema c := by
                simpa using h2
              subst hveq
              simp [hr]
          · exact Or.inr hnew
      · exact ih acc vs h v hv

theorem selectorCreated_ok (schema : Schema)
    (dv : List (String × SchemaDirectiveVisitorClass))
    (dd : List (String × GraphQLDirective)) (c : Nat) (t : SchemaElement) (m : String) :
    ∀ (nodes : List DirectiveNode) acc vs,
      selectorLoop schema dv dd c t m acc nodes = Except.ok vs →
      selectorCreated schema dv dd c t m acc nodes = vs := by
  intro nodes
  induction nodes with
  | nil =>
    intro acc vs h
    simp only [selectorLoop, Except.ok.injEq] at h
    simp [selectorCreated, h]
  | cons node rest ih =>
    intro acc vs h
    simp only [selectorLoop] at h
    simp only [selectorCreated]
    cases hr : lookupA dv node.name with
    | none =>
      simp only [hr] at h
      exact ih acc vs h
    | some cls =>
      simp only [hr] at h
      by_cases ho : cls.overrides m = true
      · simp only [ho, if_true] at h ⊢
        cases ha : resolveArgs dd node with
        | error e =>
          simp only [ha] at h
          cases h
        | ok args =>
          simp only [ha] at h ⊢
          exact ih _ vs h
      · simp only [ho, if_false] at h ⊢
        exact ih acc vs h

theorem selectorCreated_mem (schema : Schema)
    (dv : List (String × SchemaDirectiveVisitorClass))
    (dd : List (String × GraphQLDirective)) (c : Nat) (t : SchemaElement) (m : String) :
    ∀ (nodes : List DirectiveNode) acc, ∀ v ∈ selectorCreated schema dv dd c t m acc nodes,
      v ∈ acc ∨
        (v.schema = schema ∧ v.context = c ∧ v.visitedType = t ∧
          (lookupA dv v.name).isSome) := by
  intro nodes
  induction nodes with
  | nil =>
    intro acc v hv
    exact Or.inl (by simpa [selectorCreated] using hv)
  | cons node rest ih =>
    intro acc v hv
    simp only [selectorCreated] at hv
    cases hr : lookupA dv node.name with
    | none =>
      simp only [hr] at hv
      exact ih acc v hv
    | some cls =>
      simp only [hr] at hv
      by_cases ho : cls.overrides m = true
      · simp only [ho, if_true] at hv
        cases ha : resolveArgs dd node with
        | error e =>
          simp only [ha] at hv
          exact Or.inl hv
        | ok args =>
          simp only [ha] at hv
          rcases ih _ v hv with hacc | hnew
          · rcases List.mem_append.mp hacc with h1 | h2
            · exact Or.inl h1
            · refine Or.inr ?_
              have hveq : v = SchemaDirectiveVisitor.mk node.name args t schema c := by
                simpa using h2
              subst hveq
              simp [hr]
          · exact Or.inr hnew
      · simp only [ho, if_false] at hv
        exact ih acc v hv

/-! Helper lemmas about event traces. -/

theorem createdInstances_append (a b : List Event) :
    createdInstances (a ++ b) = createdInstances a ++ createdInstances b := by
  induction a with
  | nil => simp [createdInstances]
  | cons ev rest ih => cases ev <;> simp [createdInstances, ih]

theorem createdInstances_created_map (vs : List SchemaDirectiveVisitor) (m : String) :
    createdInstances (vs.map (fun v => Event.created v m)) = vs := by
  induction vs with
  | nil => simp [createdInstances]
  | cons v rest ih => simp [createdInstances, ih]

theorem createdInstances_invoked_map (vs : List SchemaDirectiveVisitor) (m : String) :
    createdInstances (vs.map (fun v => Event.invoked v m)) = [] := by
  induction vs with
  | nil => simp [createdInstances]
  | cons v rest ih => simp [createdInstances, ih]

theorem createdPairs_append (a b : List Event) :
    createdPairs (a ++ b) = createdPairs a ++ createdPairs b := by
  induction a with
  | nil => simp [createdPairs]
  | cons ev rest ih => cases ev <;> simp [createdPairs, ih]

theorem invokedPairs_append (a b : List Event) :
    invokedPairs (a ++ b) = invokedPairs a ++ invokedPairs b := by
  induction a with
  | nil => simp [invokedPairs]
  | cons ev rest ih => cases ev <;> simp [invokedPairs, ih]

theorem createdPairs_created_map (vs : List SchemaDirectiveVisitor) (m : String) :
    createdPairs (vs.map (fun v => Event.created v m)) = vs.map (fun v => (v, m)) := by
  induction vs with
  | nil => simp [createdPairs]
  | cons v rest ih => simp [createdPairs, ih]

theorem createdPairs_invoked_map (vs : List SchemaDirectiveVisitor) (m : String) :
    createdPairs (vs.map (fun v => Event.invoked v m)) = [] := by
  induction vs with
  | nil => simp [createdPairs]
  | cons v rest ih => simp [createdPairs, ih]

theorem invokedPairs_created_map (vs : List SchemaDirectiveVisitor) (m : String) :
    invokedPairs (vs.map (fun v => Event.created v m)) = [] := by
  induction vs with
  | nil => simp [invokedPairs]
  | cons v rest ih => simp [invokedPairs, ih]

theorem invokedPairs_invoked_map (vs : List SchemaDirectiveVisitor) (m : String) :
    invokedPairs (vs.map (fun v => Event.invoked v m)) = vs.map (fun v => (v, m)) := by
  induction vs with
  | nil => simp [invokedPairs]
  | cons v rest ih => simp [invokedPairs, ih]

theorem mem_createdInstances (v : SchemaDirectiveVisitor) (evs : List Event)
    (h : v ∈ createdInstances evs) : ∃ m, Event.created v m ∈ evs := by
  induction evs with
  | nil => simp [createdInstances] at h
  | cons ev rest ih =>
    cases ev with
    | created w m =>
      simp only [createdInstances, List.mem_cons] at h
      rcases h with h | h
      · exact ⟨m, by simp [h]⟩
      · obtain ⟨m2, hm⟩ := ih h
        exact ⟨m2, by simp [hm]⟩
    | invoked w m =>
      simp only [createdInstances] at h
      obtain ⟨m2, hm⟩ := ih h
      exact ⟨m2, by simp [hm]⟩

/-! Helper lemmas about the walker. -/

theorem walk_ok_lookup (schema : Schema)
    (dv : List (String × SchemaDirectiveVisitorClass))
    (dd : List (String × GraphQLDirective)) (c : Nat) :
    ∀ (ts : List (SchemaElement × String)) created evs final,
      walk schema dv dd c ts created = (evs, Except.ok final) →
      ∀ n, lookupA final n =
        Option.map (fun l => l ++ (createdInstances evs).filter (fun v => v.name = n))
          (lookupA created n) := by
  intro ts
  induction ts with
  | nil =>
    intro created evs final h n
    simp only [walk, Prod.mk.injEq] at h
    obtain ⟨h1, h2⟩ := h
    simp only [Except.ok.injEq] at h2
    subst h1; subst h2
    cases lookupA created n <;> simp [createdInstances]
  | cons e ts ih =>
    intro created evs final h n
    simp only [walk] at h
    split at h
    · injection h with h1 h2
      cases h2
    · rename_i vs hsel
      injection h with h1 h2
      cases hw : walk schema dv dd c ts (addAll created vs) with
      | mk evs2 res2 =>
        rw [hw] at h1 h2
        subst h2
        have ihh := ih (addAll created vs) evs2 final hw n
        rw [← h1, createdInstances_append, createdInstances_append,
          createdInstances_created_map, createdInstances_invoked_map]
        rw [ihh, lookupA_addAll]
        cases lookupA created n <;> simp [List.filter_append]

theorem walk_pairs_ok (schema : Schema)
    (dv : List (String × SchemaDirectiveVisitorClass))
    (dd : List (String × GraphQLDirective)) (c : Nat) :
    ∀ (ts : List (SchemaElement × String)) created evs final,
      walk schema dv dd c ts created = (evs, Except.ok final) →
      invokedPairs evs = createdPairs evs := by
  intro ts
  induction ts with
  | nil =>
    intro created evs final h
    simp only [walk, Prod.mk.injEq] at h
    obtain ⟨h1, _⟩ := h
    subst h1
    simp [invokedPairs, createdPairs]
  | cons e ts ih =>
    intro created evs final h
    simp only [walk] at h
    split at h
    · injection h with h1 h2
      cases h2
    · rename_i vs hsel
      injection h with h1 h2
      cases hw : walk schema dv dd c ts (addAll created vs) with
      | mk evs2 res2 =>
        rw [hw] at h1 h2
        subst h2
        have ihh := ih (addAll created vs) evs2 final hw
        rw [← h1]
        rw [invokedPairs_append, invokedPairs_append, createdPairs_append, createdPairs_append,
          invokedPairs_created_map, invokedPairs_invoked_map,
          createdPairs_created_map, createdPairs_invoked_map, ihh]
        simp

theorem walk_pairs_prefix (schema : Schema)
    (dv : List (String × SchemaDirectiveVisitorClass))
    (dd : List (String × GraphQLDirective)) (c : Nat) :
    ∀ (ts : List (SchemaElement × String)) created evs res,
      walk schema dv dd c ts created = (evs, res) →
      ∃ orphans, createdPairs evs = invokedPairs evs ++ orphans := by
  intro ts
  induction ts with
  | nil =>
    intro created evs res h
    simp only [walk, Prod.mk.injEq] at h
    obtain ⟨h1, _⟩ := h
    subst h1
    exact ⟨[], by simp [invokedPairs, createdPairs]⟩
  | cons e ts ih =>
    intro created evs res h
    simp only [walk] at h
    split at h
    · injection h with h1 h2
      subst h1
      refine ⟨(selectorCreated schema dv dd c e.1 e.2 []
        (directiveNodesOf e.1)).map (fun v => (v, e.2)), ?_⟩
      rw [createdPairs_created_map, invokedPairs_created_map]
      simp
    · rename_i vs hsel
      injection h with h1 h2
      cases hw : walk schema dv dd c ts (addAll created vs) with
      | mk evs2 res2 =>
        rw [hw] at h1
        obtain ⟨orphans, horph⟩ := ih (addAll created vs) evs2 res2 hw
        refine ⟨orphans, ?_⟩
        rw [← h1]
        rw [invokedPairs_append, invokedPairs_append, createdPairs_append, createdPairs_append,
          invokedPairs_created_map, invokedPairs_invoked_map,
          createdPairs_created_map, createdPairs_invoked_map, horph]
        simp

theorem walk_events (schema : Schema)
    (dv : List (String × SchemaDirectiveVisitorClass))
    (dd : List (String × GraphQLDirective)) (c : Nat) :
    ∀ (ts : List (SchemaElement × String)) created evs res,
      walk schema dv dd c ts created = (evs, res) →
      ∀ ev ∈ evs, (Event.inst ev).schema = schema ∧ (Event.inst ev).context = c := by
  intro ts
  induction ts with
  | nil =>
    intro created evs res h ev hev
    simp only [walk, Prod.mk.injEq] at h
    obtain ⟨h1, _⟩ := h
    subst h1
    simp at hev
  | cons e ts ih =>
    intro created evs res h ev hev
    simp only [walk] at h
    split at h
    · injection h with h1 h2
      subst h1
      obtain ⟨v, hv, hveq⟩ := List.mem_map.mp hev
      rcases selectorCreated_mem schema dv dd c e.1 e.2 (directiveNodesOf e.1) [] v hv with
        hin | hprop
      · simp at hin
      · rw [← hveq]
        exact ⟨hprop.1, hprop.2.1⟩
    · rename_i vs hsel
      injection h with h1 h2
      cases hw : walk schema dv dd c ts (addAll created vs) with
      | mk evs2 res2 =>
        rw [hw] at h1
        rw [← h1] at hev
        have hvs : ∀ v ∈ vs, v.schema = schema ∧ v.context = c := by
          intro v hv
          rcases selectorLoop_mem schema dv dd c e.1 e.2 (directiveNodesOf e.1) [] vs hsel v hv with
            hin | hprop
          · simp at hin
          · exact ⟨hprop.1, hprop.2.1⟩
        rcases List.mem_append.mp hev with hev1 | hev2
        · rcases List.mem_append.mp hev1 with hc | hi
          · obtain ⟨v, hv, hveq⟩ := List.mem_map.mp hc
            rw [← hveq]
            exact hvs v hv
          · obtain ⟨v, hv, hveq⟩ := List.mem_map.mp hi
            rw [← hveq]
            exact hvs v hv
        · exact ih (addAll created vs) evs2 res2 hw ev hev2

/-! Helper lemmas about declaration resolution and validation. -/

theorem checkLocations_error (n : String) (cls : SchemaDirectiveVisitorClass)
    (loc : DirectiveLocation)
    (hbase : baseImplementsVisitorMethod (directiveLocationToVisitorMethodName loc) = true)
    (hover : cls.overrides (directiveLocationToVisitorMethodName loc) = false) :
    ∀ locs, loc ∈ locs → ∃ e, checkLocations n cls locs = Except.error e := by
  intro locs
  induction locs with
  | nil => intro h; simp at h
  | cons l0 rest ih =>
    intro h
    by_cases hc : baseImplementsVisitorMethod (directiveLocationToVisitorMethodName l0) &&
        !(cls.overrides (directiveLocationToVisitorMethodName l0))
    · refine ⟨"SchemaDirectiveVisitor for @" ++ n ++ " must implement " ++
        directiveLocationToVisitorMethodName l0 ++ " method", ?_⟩
      simp [checkLocations, hc]
    · rcases List.mem_cons.mp h with h1 | h2
      · subst h1
        rw [hbase, hover] at hc
        simp at hc
      · obtain ⟨e, he⟩ := ih h2
        exact ⟨e, by simp [checkLocations, hc, he]⟩

theorem checkDeclared_error (dv : List (String × SchemaDirectiveVisitorClass))
    (nm : String) (d : GraphQLDirective) (cls : SchemaDirectiveVisitorClass) (e0 : String)
    (hl : lookupA dv nm = some cls)
    (hcl : checkLocations nm cls d.locations = Except.error e0) :
    ∀ l, (nm, d) ∈ l → ∃ e, checkDeclared dv l = Except.error e := by
  intro l
  induction l with
  | nil => intro h; simp at h
  | cons p rest ih =>
    intro h
    rcases List.mem_cons.mp h with h1 | h2
    · subst h1
      exact ⟨e0, by simp [checkDeclared, hl, hcl]⟩
    · cases hr : lookupA dv p.1 with
      | none =>
        obtain ⟨e, he⟩ := ih h2
        exact ⟨e, by simp [checkDeclared, hr, he]⟩
      | some cls2 =>
        cases hc : checkLocations p.1 cls2 p.2.locations with
        | error e => exact ⟨e, by simp [checkDeclared, hr, hc]⟩
        | ok u =>
          obtain ⟨e, he⟩ := ih h2
          exact ⟨e, by simp [checkDeclared, hr, hc, he]⟩

theorem checkDeclared_ignores_unregistered (dv : List (String × SchemaDirectiveVisitorClass)) :
    ∀ l, checkDeclared dv l =
      checkDeclared dv (l.filter (fun p => (lookupA dv p.1).isSome)) := by
  intro l
  induction l with
  | nil => simp
  | cons p rest ih =>
    cases hr : lookupA dv p.1 with
    | none => simp [checkDeclared, hr, List.filter_cons, ih]
    | some cls =>
      cases hc : checkLocations p.1 cls p.2.locations with
      | error e => simp [checkDeclared, hr, hc, List.filter_cons]
      | ok u => simp [checkDeclared, hr, hc, List.filter_cons, ih]

theorem foldl_hook_not_mem (schema : Schema) (n : String) :
    ∀ (dvl : List (String × SchemaDirectiveVisitorClass)) m0, (∀ p ∈ dvl, p.1 ≠ n) →
      lookupA (dvl.foldl
        (fun m p =>
          match p.2.getDirectiveDeclaration p.1 schema with
          | some d => insertAssoc m p.1 d
          | none => m) m0) n = lookupA m0 n := by
  intro dvl
  induction dvl with
  | nil => intro m0 _; rfl
  | cons p rest ih =>
    intro m0 hne
    have hp : p.1 ≠ n := hne p (by simp)
    have hrest : ∀ q ∈ rest, q.1 ≠ n := fun q hq => hne q (by simp [hq])
    cases hk : p.2.getDirectiveDeclaration p.1 schema with
    | none => simpa [hk] using ih m0 hrest
    | some d =>
      have := ih (insertAssoc m0 p.1 d) hrest
      simp only [List.foldl_cons, hk]
      rw [this, lookupA_insertAssoc_ne m0 p.1 n d (Ne.symm hp)]

theorem lookupA_mergeHook_none (schema : Schema)
    (dv : List (String × SchemaDirectiveVisitorClass)) (n : String)
    (h : lookupA dv n = none) :
    lookupA (mergeHookDeclared schema dv) n = lookupA (seedDeclared schema) n :=
  foldl_hook_not_mem schema n dv (seedDeclared schema) (lookupA_none_forall dv n h)

theorem nodup_split_right {α : Type} (l1 l2 : List (String × α)) (n : String) (v : α)
    (hnd : ((l1 ++ (n, v) :: l2).map Prod.fst).Nodup) : ∀ p ∈ l2, p.1 ≠ n := by
  intro p hp heq
  rw [List.map_append] at hnd
  have h2 := hnd.of_append_right
  rw [List.map_cons, List.nodup_cons] at h2
  exact h2.1 (List.mem_map.mpr ⟨p, hp, heq⟩)

theorem lookupA_mergeHook_some (schema : Schema)
    (dv : List (String × SchemaDirectiveVisitorClass)) (n : String)
    (cls : SchemaDirectiveVisitorClass) (d : GraphQLDirective)
    (hnd : (dv.map Prod.fst).Nodup)
    (hl : lookupA dv n = some cls)
    (hk : cls.getDirectiveDeclaration n schema = some d) :
    lookupA (mergeHookDeclared schema dv) n = some d := by
  obtain ⟨l1, l2, heq, _⟩ := lookupA_split dv n cls hl
  subst heq
  unfold mergeHookDeclared
  rw [List.foldl_append, List.foldl_cons]
  simp only [hk]
  rw [foldl_hook_not_mem schema n l2 _ (nodup_split_right l1 l2 n cls hnd)]
  exact lookupA_insertAssoc_self _ n d

theorem lookupA_mergeHook_hook_none (schema : Schema)
    (dv : List (String × SchemaDirectiveVisitorClass)) (n : String)
    (cls : SchemaDirectiveVisitorClass)
    (hnd : (dv.map Prod.fst).Nodup)
    (hl : lookupA dv n = some cls)
    (hk : cls.getDirectiveDeclaration n schema = none) :
    lookupA (mergeHookDeclared schema dv) n = lookupA (seedDeclared schema) n := by
  obtain ⟨l1, l2, heq, hne1⟩ := lookupA_split dv n cls hl
  subst heq
  unfold mergeHookDeclared
  rw [List.foldl_append, List.foldl_cons]
  simp only [hk]
  rw [foldl_hook_not_mem schema n l2 _ (nodup_split_right l1 l2 n cls hnd)]
  exact foldl_hook_not_mem schema n l1 _ hne1

theorem lookupA_seed_isSome_aux (n : String) :
    ∀ (ds : List GraphQLDirective) m0,
      (lookupA (ds.foldl (fun m d => insertAssoc m d.name d) m0) n).isSome
        ↔ n ∈ ds.map GraphQLDirective.name ∨ (lookupA m0 n).isSome := by
  intro ds
  induction ds with
  | nil => intro m0; simp
  | cons d rest ih =>
    intro m0
    by_cases hd : d.name = n
    · rw [List.foldl_cons, ih]
      have h2 := lookupA_insertAssoc_self m0 d.name d
      rw [hd] at h2
      simp [hd, h2]
    · rw [List.foldl_cons, ih, lookupA_insertAssoc_ne m0 d.name n d (Ne.symm hd)]
      simp [Ne.symm hd]

theorem lookupA_seed_isSome (s : Schema) (n : String) :
    (lookupA (seedDeclared s) n).isSome ↔ n ∈ s.directives.map GraphQLDirective.name := by
  have := lookupA_seed_isSome_aux n s.directives []
  simpa [seedDeclared, lookupA] using this

/-! Helper lemmas about untyped argument conversion and extension nodes. -/

theorem untypedLoop_preserve (a : String) :
    ∀ (args : List (String × ValueNode)) acc res,
      untypedLoop acc args = Except.ok res → (∀ p ∈ args, p.1 ≠ a) →
      lookupA res a = lookupA acc a := by
  intro args
  induction args with
  | nil =>
    intro acc res h _
    simp only [untypedLoop, Except.ok.injEq] at h
    rw [← h]
  | cons p rest ih =>
    intro acc res h hne
    simp only [untypedLoop] at h
    split at h
    · cases h
    · rename_i v hv
      have hp : p.1 ≠ a := hne p (by simp)
      have hrest : ∀ q ∈ rest, q.1 ≠ a := fun q hq => hne q (by simp [hq])
      rw [ih (insertAssoc acc p.1 v) res h hrest,
        lookupA_insertAssoc_ne acc p.1 a v (Ne.symm hp)]

theorem untypedLoop_lookup (a : String) (vn : ValueNode) :
    ∀ (args : List (String × ValueNode)) acc res,
      untypedLoop acc args = Except.ok res → (args.map Prod.fst).Nodup →
      (a, vn) ∈ args →
      ∃ v, valueFromASTUntyped vn = Except.ok v ∧ lookupA res a = some v := by
  intro args
  induction args with
  | nil => intro acc res _ _ hm; simp at hm
  | cons p rest ih =>
    intro acc res h hnd hm
    simp only [untypedLoop] at h
    split at h
    · cases h
    · rename_i v hv
      rcases List.mem_cons.mp hm with h1 | h2
      · have hp1 : p.1 = a := by rw [← h1]
        have hp2 : p.2 = vn := by rw [← h1]
        have hnotin : ∀ q ∈ rest, q.1 ≠ a := by
          intro q hq heq
          rw [List.map_cons, List.nodup_cons] at hnd
          exact hnd.1 (hp1 ▸ heq ▸ List.mem_map.mpr ⟨q, hq, rfl⟩)
        refine ⟨v, by rw [← hp2]; exact hv, ?_⟩
        rw [untypedLoop_preserve a rest _ res h hnotin, hp1,
          lookupA_insertAssoc_self acc a v]
      · rw [List.map_cons, List.nodup_cons] at hnd
        exact ih (insertAssoc acc p.1 v) res h hnd.2 h2

theorem foldl_append_directives :
    ∀ (exts : List ASTNode) base, exts.foldl (fun acc e => acc ++ e.directives) base =
      base ++ (exts.map ASTNode.directives).flatten := by
  intro exts
  induction exts with
  | nil => intro base; simp
  | cons e rest ih => intro base; simp [ih]

/-! Claim theorems. -/

/-- Claim C7: directiveLocationToVisitorMethodName is a pure total
function on directive-location enum values; it splits the symbolic name on
the underscore separator, title-cases each segment, concatenates them, and
prepends the fixed visit string; in particular FIELD_DEFINITION maps to
visitFieldDefinition and ENUM_VALUE maps to visitEnumValue. -/
theorem c7_location_to_method_name :
    (∀ loc, directiveLocationToVisitorMethodName loc = specLocationMethodName loc) ∧
    directiveLocationToVisitorMethodName DirectiveLocation.FIELD_DEFINITION =
      "visitFieldDefinition" ∧
    directiveLocationToVisitorMethodName DirectiveLocation.ENUM_VALUE = "visitEnumValue" :=
  ⟨fun loc => by cases loc <;> rfl, rfl, rfl⟩

theorem c7_witness :
    directiveLocationToVisitorMethodName DirectiveLocation.ENUM_VALUE = "visitEnumValue" :=
  c7_location_to_method_name.2.2

/-- Claim C5: the occurrences the selector considers on an element are the
base definition's directive list with the directive lists of all extension
AST nodes appended after it in extension order, and extension occurrences
go through exactly the same occurrence loop as base occurrences. -/
theorem c5_extension_directives_appended (schema : Schema)
    (dv : List (String × SchemaDirectiveVisitorClass))
    (dd : List (String × GraphQLDirective)) (c : Nat) (t : SchemaElement) (m : String) :
    (directiveNodesOf t =
      Option.elim t.astNode [] ASTNode.directives ++
        ((Option.getD t.extensionASTNodes []).map ASTNode.directives).flatten) ∧
    (visitorSelector schema dv dd c t m =
      Except.bind
        (selectorLoop schema dv dd c t m [] (Option.elim t.astNode [] ASTNode.directives))
        (fun acc2 => selectorLoop schema dv dd c t m acc2
          (((Option.getD t.extensionASTNodes []).map ASTNode.directives).flatten))) := by
  have h1 : directiveNodesOf t =
      Option.elim t.astNode [] ASTNode.directives ++
        ((Option.getD t.extensionASTNodes []).map ASTNode.directives).flatten := by
    obtain ⟨oa, oe⟩ := t
    cases oa <;> cases oe <;> simp [directiveNodesOf, foldl_append_directives]
  refine ⟨h1, ?_⟩
  unfold visitorSelector
  rw [h1, selectorLoop_append]

theorem c5_witness : directiveNodesOf exElem = [upperNode] ++ [upperNode] :=
  (c5_extension_directives_appended exSchema exDv [] 5 exElem "visitFieldDefinition").1

/-- Claim C10: for an element whose astNode is absent and which carries no
extension AST nodes, the selector discovers no occurrence, creates no
instance, and raises no error: it returns the empty list. -/
theorem c10_elements_without_ast_invisible (schema : Schema)
    (dv : List (String × SchemaDirectiveVisitorClass))
    (dd : List (String × GraphQLDirective)) (c : Nat) (t : SchemaElement) (m : String)
    (h1 : t.astNode = none)
    (h2 : t.extensionASTNodes = none ∨ t.extensionASTNodes = some []) :
    directiveNodesOf t = [] ∧ visitorSelector schema dv dd c t m = Except.ok [] := by
  have hd : directiveNodesOf t = [] := by
    rcases h2 with h2 | h2 <;> simp [directiveNodesOf, h1, h2]
  exact ⟨hd, by simp [visitorSelector, hd, selectorLoop]⟩

theorem c10_witness :
    directiveNodesOf bareElem = [] ∧
      visitorSelector exSchema exDv [] 5 bareElem "visitFieldDefinition" = Except.ok [] :=
  c10_elements_without_ast_invisible exSchema exDv [] 5 bareElem "visitFieldDefinition"
    rfl (Or.inl rfl)

/-- Claim C2: an occurrence whose name is not an own key of the visitor
mapping, or whose registered class does not implement the handler for the
element's location, yields no visitor instance and contributes nothing:
the occurrence loop behaves as if the occurrence were absent, and hence
nothing is appended to the result map for it. -/
theorem c2_unregistered_or_unimplemented_creates_nothing (schema : Schema)
    (dv : List (String × SchemaDirectiveVisitorClass))
    (dd : List (String × GraphQLDirective)) (c : Nat) (t : SchemaElement) (m : String)
    (node : DirectiveNode) (pre post : List DirectiveNode) (acc : List SchemaDirectiveVisitor)
    (h : ∀ cls, lookupA dv node.name = some cls → cls.overrides m = false) :
    (selectorLoop schema dv dd c t m acc (pre ++ node :: post) =
      selectorLoop schema dv dd c t m acc (pre ++ post)) ∧
    (directiveNodesOf t = pre ++ node :: post →
      visitorSelector schema dv dd c t m =
        selectorLoop schema dv dd c t m [] (pre ++ post)) := by
  refine ⟨selectorLoop_skip schema dv dd c t m node h pre post acc, ?_⟩
  intro hd
  unfold visitorSelector
  rw [hd, selectorLoop_skip schema dv dd c t m node h pre post []]

theorem c2_witness :
    selectorLoop exSchema exDv [] 5 exElem "visitFieldDefinition" []
        [DirectiveNode.mk "mystery" [], upperNode] =
      selectorLoop exSchema exDv [] 5 exElem "visitFieldDefinition" [] [upperNode] :=
  (c2_unregistered_or_unimplemented_creates_nothing exSchema exDv [] 5 exElem
    "visitFieldDefinition" (DirectiveNode.mk "mystery" []) [] [upperNode] []
    (fun _ hc => Option.noConfusion hc)).1

/-- Claim C3: for an occurrence that yields an instance, the instance's
args come from resolveArgs: the declared-type coercion with defaults (and
fatal errors) of getArgumentValues when an effective declaration exists,
and the untyped conversion loop otherwise; an undeclared occurrence with
no arguments yields an instance whose args mapping is empty, and for an
undeclared occurrence every supplied argument name maps to the untyped
conversion of its literal. -/
theorem c3_argument_resolution (schema : Schema)
    (dv : List (String × SchemaDirectiveVisitorClass))
    (dd : List (String × GraphQLDirective)) (c : Nat) (t : SchemaElement) (m : String)
    (acc : List SchemaDirectiveVisitor) (node : DirectiveNode)
    (cls : SchemaDirectiveVisitorClass)
    (h1 : lookupA dv node.name = some cls) (h2 : cls.overrides m = true) :
    (selectorLoop schema dv dd c t m acc [node] =
      Except.map (fun args => acc ++ [SchemaDirectiveVisitor.mk node.name args t schema c])
        (resolveArgs dd node)) ∧
    (∀ decl, lookupA dd node.name = some decl →
      resolveArgs dd node = getArgumentValues decl node) ∧
    (lookupA dd node.name = none →
      resolveArgs dd node = untypedLoop [] node.arguments) ∧
    (lookupA dd node.name = none → node.arguments = [] →
      selectorLoop schema dv dd c t m acc [node] =
        Except.ok (acc ++ [SchemaDirectiveVisitor.mk node.name [] t schema c])) ∧
    (∀ res a vn, untypedLoop [] node.arguments = Except.ok res →
      (node.arguments.map Prod.fst).Nodup → (a, vn) ∈ node.arguments →
      ∃ v, valueFromASTUntyped vn = Except.ok v ∧ lookupA res a = some v) := by
  refine ⟨?_, ?_, ?_, ?_, ?_⟩
  · simp only [selectorLoop, h1, h2, if_true]
    cases ha : resolveArgs dd node with
    | error e => simp [Except.map]
    | ok args => simp [selectorLoop, Except.map]
  · intro decl hdecl
    simp [resolveArgs, hdecl]
  · intro hnone
    simp [resolveArgs, hnone]
  · intro hnone hargs
    simp [selectorLoop, h1, h2, resolveArgs, hnone, hargs, untypedLoop]
  · intro res a vn hok hnd hm
    exact untypedLoop_lookup a vn node.arguments [] res hok hnd hm

theorem c3_witness :
    selectorLoop exSchema exDv [] 5 exElem "visitFieldDefinition" [] [upperNode] =
      Except.ok [SchemaDirectiveVisitor.mk "upper" [] exElem exSchema 5] :=
  (c3_argument_resolution exSchema exDv [] 5 exElem "visitFieldDefinition" [] upperNode
    upperClass rfl rfl).2.2.2.1 rfl rfl

/-- Claim C1: when some legal location of an effective declaration for a
registered name maps to a real handler that the registered class does not
implement, visitSchemaDirectives fails during declaration resolution:
getDeclaredDirectives returns the error and the dispatch call returns it
with an empty event trace, so the failure precedes the schema walk and any
visitor-caused mutation. -/
theorem c1_unimplemented_handler_fails_before_walk (schema : Schema)
    (dv : List (String × SchemaDirectiveVisitorClass)) (nm : String)
    (decl : GraphQLDirective) (cls : SchemaDirectiveVisitorClass) (loc : DirectiveLocation)
    (ctxArg : Option Nat) (fresh : Nat)
    (hm : lookupA (mergeHookDeclared schema dv) nm = some decl)
    (hcls : lookupA dv nm = some cls)
    (hloc : loc ∈ decl.locations)
    (hbase : baseImplementsVisitorMethod (directiveLocationToVisitorMethodName loc) = true)
    (hover : cls.overrides (directiveLocationToVisitorMethodName loc) = false) :
    ∃ e, getDeclaredDirectives schema dv = Except.error e ∧
      visitSchemaDirectives schema dv ctxArg fresh = ([], Except.error e) := by
  obtain ⟨e0, he0⟩ := checkLocations_error nm cls loc hbase hover decl.locations hloc
  obtain ⟨e, he⟩ := checkDeclared_error dv nm decl cls e0 hcls he0
    (mergeHookDeclared schema dv) (lookupA_mem _ nm decl hm)
  refine ⟨e, ?_, ?_⟩
  · simp [getDeclaredDirectives, he]
  · simp [visitSchemaDirectives, getDeclaredDirectives, he]

theorem c1_witness :
    ∃ e, getDeclaredDirectives authSchema authDv = Except.error e ∧
      visitSchemaDirectives authSchema authDv none 0 = ([], Except.error e) :=
  c1_unimplemented_handler_fails_before_walk authSchema authDv "auth" authDecl noopClass
    DirectiveLocation.OBJECT none 0 rfl rfl (by simp [authDecl]) (by rfl) rfl

/-- Claim C4: effective declarations are seeded from every directive
declared in the schema, keyed by name; for each registered pair a non-null
result of the class's declaration hook replaces the schema-seeded
declaration for that name (a null result leaves the seed in place, and the
default hook returns exactly the schema's declaration); and declarations
whose names are absent from the mapping are retained in the output without
being validated against any visitor class. -/
theorem c4_effective_declarations (schema : Schema)
    (dv : List (String × SchemaDirectiveVisitorClass))
    (hnd : (dv.map Prod.fst).Nodup) :
    (∀ n, (lookupA (seedDeclared schema) n).isSome ↔
        n ∈ schema.directives.map GraphQLDirective.name) ∧
    (∀ n cls d, lookupA dv n = some cls → cls.getDirectiveDeclaration n schema = some d →
        lookupA (mergeHookDeclared schema dv) n = some d) ∧
    (∀ n cls, lookupA dv n = some cls → cls.getDirectiveDeclaration n schema = none →
        lookupA (mergeHookDeclared schema dv) n = lookupA (seedDeclared schema) n) ∧
    (∀ n s2, defaultGetDirectiveDeclaration n s2 = s2.getDirective n) ∧
    (∀ n, lookupA dv n = none →
        lookupA (mergeHookDeclared schema dv) n = lookupA (seedDeclared schema) n) ∧
    (∀ l, checkDeclared dv l =
        checkDeclared dv (l.filter (fun p => (lookupA dv p.1).isSome))) ∧
    (∀ declared, getDeclaredDirectives schema dv = Except.ok declared →
        declared = mergeHookDeclared schema dv) := by
  refine ⟨lookupA_seed_isSome schema, ?_, ?_, fun n s2 => rfl, ?_, ?_, ?_⟩
  · intro n cls d hl hk
    exact lookupA_mergeHook_some schema dv n cls d hnd hl hk
  · intro n cls hl hk
    exact lookupA_mergeHook_hook_none schema dv n cls hnd hl hk
  · intro n hl
    exact lookupA_mergeHook_none schema dv n hl
  · exact checkDeclared_ignores_unregistered dv
  · intro declared hout
    unfold getDeclaredDirectives at hout
    cases hc : checkDeclared dv (mergeHookDeclared schema dv) with
    | ok u => rw [hc] at hout; injection hout with h; exact h.symm
    | error e => rw [hc] at hout; cases hout

theorem c4_witness :
    lookupA (mergeHookDeclared authSchema hookDv) "auth" = some authDecl2 :=
  (c4_effective_declarations authSchema hookDv (by simp [hookDv])).2.1 "auth" hookClass
    authDecl2 rfl rfl

/-- Claim C6: the result map of visitSchemaDirectives has an entry for
exactly the keys of the visitor mapping; the list for each name consists
of exactly the instances created for occurrences of that name, in the
order their creations were encountered during the walk, so every instance
in the list for a name carries that name. -/
theorem c6_result_map_structure (schema : Schema)
    (dv : List (String × SchemaDirectiveVisitorClass))
    (ctxArg : Option Nat) (fresh : Nat) (evs : List Event)
    (final : List (String × List SchemaDirectiveVisitor))
    (h : visitSchemaDirectives schema dv ctxArg fresh = (evs, Except.ok final)) :
    (∀ n, (lookupA final n).isSome ↔ (lookupA dv n).isSome) ∧
    (∀ n l, lookupA final n = some l →
        l = (createdInstances evs).filter (fun v => v.name = n)) ∧
    (∀ n l, lookupA final n = some l → ∀ v ∈ l, v.name = n) := by
  simp only [visitSchemaDirectives] at h
  split at h
  · injection h with h1 h2
    cases h2
  · rename_i declared hdecl
    have hlook := walk_ok_lookup schema dv declared (ctxArg.getD fresh)
      schema.traversal (initCreated dv) evs final h
    have key : ∀ n l, lookupA final n = some l →
        l = (createdInstances evs).filter (fun v => v.name = n) := by
      intro n l hl
      have hn := hlook n
      rw [lookupA_initCreated dv n] at hn
      by_cases hdv : (lookupA dv n).isSome = true
      · rw [if_pos hdv] at hn
        have hn2 : some l =
            some ([] ++ (createdInstances evs).filter (fun v => v.name = n)) := by
          rw [← hl, hn]
          exact rfl
        have hn3 := Option.some.inj hn2
        simpa using hn3
      · rw [if_neg hdv] at hn
        rw [hl] at hn
        simp at hn
    refine ⟨?_, key, ?_⟩
    · intro n
      have hn := hlook n
      rw [lookupA_initCreated dv n] at hn
      by_cases hdv : (lookupA dv n).isSome = true
      · rw [if_pos hdv] at hn
        simp [hn, hdv]
      · rw [if_neg hdv] at hn
        simp [hn, hdv]
    · intro n l hl v hv
      rw [key n l hl] at hv
      simp only [List.mem_filter, decide_eq_true_eq] at hv
      exact hv.2

theorem c6_witness :
    [exVisitor, exVisitor] =
      (createdInstances (visitSchemaDirectives exSchema exDv (some 5) 0).1).filter
        (fun v => v.name = "upper") :=
  (c6_result_map_structure exSchema exDv (some 5) 0
    (visitSchemaDirectives exSchema exDv (some 5) 0).1
    [("upper", [exVisitor, exVisitor])] rfl).2.1 "upper" [exVisitor, exVisitor] rfl

/-- Claim C8: every instance created in one visitSchemaDirectives call
holds the very same context reference, namely the caller-supplied context
or, when omitted, the fresh empty object allocated for the call, and the
same schema reference; and the constructor stores name, args, visitedType,
schema and context exactly as passed. -/
theorem c8_shared_context_and_constructor_fields (schema : Schema)
    (dv : List (String × SchemaDirectiveVisitorClass))
    (ctxArg : Option Nat) (fresh : Nat) (evs : List Event)
    (final : List (String × List SchemaDirectiveVisitor))
    (h : visitSchemaDirectives schema dv ctxArg fresh = (evs, Except.ok final)) :
    (∀ ev ∈ evs, (Event.inst ev).context = ctxArg.getD fresh ∧
        (Event.inst ev).schema = schema) ∧
    (∀ n l, lookupA final n = some l → ∀ v ∈ l,
        v.context = ctxArg.getD fresh ∧ v.schema = schema) ∧
    (∀ nm args t s c, (SchemaDirectiveVisitor.mk nm args t s c).name = nm ∧
        (SchemaDirectiveVisitor.mk nm args t s c).args = args ∧
        (SchemaDirectiveVisitor.mk nm args t s c).visitedType = t ∧
        (SchemaDirectiveVisitor.mk nm args t s c).schema = s ∧
        (SchemaDirectiveVisitor.mk nm args t s c).context = c) := by
  simp only [visitSchemaDirectives] at h
  split at h
  · injection h with h1 h2
    cases h2
  · rename_i declared hdecl
    have hev := walk_events schema dv declared (ctxArg.getD fresh)
      schema.traversal (initCreated dv) evs (Except.ok final) h
    have hlook := walk_ok_lookup schema dv declared (ctxArg.getD fresh)
      schema.traversal (initCreated dv) evs final h
    refine ⟨?_, ?_, fun nm args t s c => ⟨rfl, rfl, rfl, rfl, rfl⟩⟩
    · intro ev hevm
      exact ⟨(hev ev hevm).2, (hev ev hevm).1⟩
    · intro n l hl v hv
      have hn := hlook n
      rw [lookupA_initCreated dv n] at hn
      by_cases hdv : (lookupA dv n).isSome = true
      · rw [if_pos hdv] at hn
        have hn2 : some l =
            some ([] ++ (createdInstances evs).filter (fun w => w.name = n)) := by
          rw [← hl, hn]
          exact rfl
        have hn3 := Option.some.inj hn2
        have hvf : v ∈ (createdInstances evs).filter (fun w => w.name = n) := by
          rw [hn3] at hv
          simpa using hv
        have hvc : v ∈ createdInstances evs := (List.mem_filter.mp hvf).1
        obtain ⟨m2, hm2⟩ := mem_createdInstances v evs hvc
        have := hev (Event.created v m2) hm2
        exact ⟨this.2, this.1⟩
      · rw [if_neg hdv] at hn
        rw [hl] at hn
        simp at hn

theorem c8_witness :
    exVisitor.context = Option.getD (some 5) 0 ∧ exVisitor.schema = exSchema :=
  (c8_shared_context_and_constructor_fields exSchema exDv (some 5) 0
    (visitSchemaDirectives exSchema exDv (some 5) 0).1
    [("upper", [exVisitor, exVisitor])] rfl).2.1 "upper" [exVisitor, exVisitor] rfl
    exVisitor (by simp)

/-- Claim C9 (amended): on a dispatch pass that completes without error,
the sequence of handler invocation events equals the sequence of instance
creation events, as (instance, handler-method) pairs in order: each
created instance has its element's handler invoked on it exactly once,
with invocations for an element's instances performed after the selector
has created all instances for that element, not immediately upon each
individual creation.  On every pass, completed or aborted, the creation
sequence equals the invocation sequence followed by a possibly empty tail
of orphaned creations: the instances already constructed for the failing
element's earlier occurrences before argument resolution threw, which are
created but never invoked. -/
theorem c9_invocations_match_creations (schema : Schema)
    (dv : List (String × SchemaDirectiveVisitorClass))
    (ctxArg : Option Nat) (fresh : Nat) (evs : List Event)
    (res : Except String (List (String × List SchemaDirectiveVisitor)))
    (h : visitSchemaDirectives schema dv ctxArg fresh = (evs, res)) :
    (∀ final, res = Except.ok final → invokedPairs evs = createdPairs evs) ∧
    (∃ orphans, createdPairs evs = invokedPairs evs ++ orphans) := by
  simp only [visitSchemaDirectives] at h
  split at h
  · injection h with h1 h2
    subst h1
    constructor
    · intro final _
      simp [invokedPairs, createdPairs]
    · exact ⟨[], by simp [invokedPairs, createdPairs]⟩
  · rename_i declared hdecl
    constructor
    · intro final hres
      rw [hres] at h
      exact walk_pairs_ok schema dv declared (ctxArg.getD fresh)
        schema.traversal (initCreated dv) evs final h
    · exact walk_pairs_prefix schema dv declared (ctxArg.getD fresh)
        schema.traversal (initCreated dv) evs res h

theorem c9_witness :
    invokedPairs (visitSchemaDirectives exSchema exDv (some 5) 0).1 =
      createdPairs (visitSchemaDirectives exSchema exDv (some 5) 0).1 :=
  (c9_invocations_match_creations exSchema exDv (some 5) 0
      (visitSchemaDirectives exSchema exDv (some 5) 0).1
      (visitSchemaDirectives exSchema exDv (some 5) 0).2 rfl).1
    [("upper", [exVisitor, exVisitor])] rfl

/-- Claim C9 counterexample: on a schema whose one element carries two
registered occurrences, the dispatch trace is creation, creation,
invocation, invocation: both instances are created before either handler
runs, so the first handler is not invoked immediately upon its instance's
creation before the next occurrence on the same element is processed,
which would require the trace creation, invocation, creation,
invocation. -/
theorem c9_counterexample :
    (visitSchemaDirectives exSchema exDv none 0).1.map Event.kind =
        [EventKind.create, EventKind.create, EventKind.invoke, EventKind.invoke] ∧
      [EventKind.create, EventKind.create, EventKind.invoke, EventKind.invoke] ≠
        [EventKind.create, EventKind.invoke, EventKind.create, EventKind.invoke] :=
  ⟨rfl, by decide⟩

end GraphQLTools
